import Mathlib

/-!
Verification of the `any-to-poem` backend (Node.js/Express).

This file gives a shallow embedding, in Lean 4, of the code that the
specification's claims are about:

* `DoubaoService.parsePoetryResult` (src/models/Poetry.js, DoubaoService
  section) — the free-text response parser, embedded over `List Char`
  with JavaScript regex/`trim`/`split` semantics spelled out;
* the upload-path size decision (`poetryController.generatePoetry` and the
  `POST /api/images/upload` route);
* `OSSService.uploadImage` / `OSSService.multipartUploadImage` — with the
  external `sharp` re-encode and the OSS `put` call modelled as explicit
  outcome parameters;
* the orchestrator `poetryController.generatePoetry` — control flow over
  explicit outcome parameters for OSS upload, inference and persistence;
* `poetryController.deletePoetry` ownership check;
* the record mutations performed by `updateFeedback` and `sharePoetry`
  (via `Poetry.incrementShareCount`).

Strings manipulated by the parser are modelled as `List Char`.  JavaScript
peculiarities that matter to the claims are embedded explicitly: the
whitespace class of `\s` / `String.prototype.trim`, the `.` character class
(which excludes line terminators), string truthiness (`"" ` is falsy), and
the fact that the title-promotion branch of `parsePoetryResult` references
the `const analysis` binding before its declaration (a temporal-dead-zone
`ReferenceError`), which the surrounding `try`/`catch` turns into the
canned fallback result.
-/

namespace AnyToPoem

/-! ## JavaScript character classes and string primitives -/

/-- The character class of JavaScript `\s` (also the set trimmed by
`String.prototype.trim`): tab, LF, VT, FF, CR, space, NBSP, Ogham space,
the U+2000–U+200A range, LS, PS, NNBSP, MMSP, ideographic space, BOM. -/
def jsIsSpace (c : Char) : Bool :=
  c.toNat = 0x9 || c.toNat = 0xa || c.toNat = 0xb || c.toNat = 0xc ||
  c.toNat = 0xd || c.toNat = 0x20 || c.toNat = 0xa0 || c.toNat = 0x1680 ||
  (0x2000 ≤ c.toNat && c.toNat ≤ 0x200a) ||
  c.toNat = 0x2028 || c.toNat = 0x2029 || c.toNat = 0x202f ||
  c.toNat = 0x205f || c.toNat = 0x3000 || c.toNat = 0xfeff

/-- The character class of JavaScript `.` (without the `s` flag): any
character except the four line terminators LF, CR, LS, PS. -/
def jsDot (c : Char) : Bool :=
  !(c.toNat = 0xa || c.toNat = 0xd || c.toNat = 0x2028 || c.toNat = 0x2029)

/-- JavaScript `String.prototype.trim`: drop `\s`-class characters from
both ends. -/
def trimJS (l : List Char) : List Char :=
  (((l.dropWhile jsIsSpace).reverse).dropWhile jsIsSpace).reverse

/-- JavaScript string truthiness: `null`/`undefined` and `""` are falsy. -/
def jsTruthyStr : Option String → Bool
  | none => false
  | some s => !s.isEmpty

/-- `s.split('\n')` with JavaScript semantics: `n` separators yield `n+1`
pieces, so the result is never empty and empty pieces are kept. -/
def splitNL : List Char → List (List Char)
  | [] => [[]]
  | c :: rest =>
    if c = '\n' then [] :: splitNL rest
    else
      match splitNL rest with
      | [] => [[c]]
      | h :: t => (c :: h) :: t

/-- Remainder of `s` after the first occurrence of `m` (the regex engine's
leftmost match of a literal pattern); `none` if `m` does not occur. -/
def findAfter (m : List Char) : List Char → Option (List Char)
  | [] => if m.isPrefixOf ([] : List Char) then some [] else none
  | c :: rest =>
    if m.isPrefixOf (c :: rest) then some (List.drop m.length (c :: rest))
    else findAfter m rest

/-- Longest prefix of `s` that stops just before the first position where
one of the `stops` patterns begins; the whole of `s` if no stop occurs.
This is the lazy capture `([\s\S]*?)` bounded by a lookahead alternation
with `$`. -/
def captureUntil (stops : List (List Char)) : List Char → List Char
  | [] => []
  | c :: rest =>
    if stops.any (fun q => q.isPrefixOf (c :: rest)) then []
    else c :: captureUntil stops rest

/-- The capture of `/^(.+?)\n/`: the run of `.`-class characters at the
start of `s`, provided it is non-empty and immediately followed by `'\n'`. -/
def firstLineCapture (s : List Char) : Option (List Char) :=
  let l := s.takeWhile jsDot
  if l.isEmpty then none
  else
    match s.drop l.length with
    | '\n' :: _ => some l
    | _ => none

/-- `s.replace(/^.+?\n/, '')`: remove the first line together with its
newline when the regex matches, otherwise leave `s` unchanged. -/
def removeFirstLine (s : List Char) : List Char :=
  match firstLineCapture s with
  | some l => s.drop (l.length + 1)
  | none => s

/-! ## The parser `DoubaoService.parsePoetryResult` -/

/-- Literal pattern of the description marker regex. -/
def descMarker : List Char := ['*', '*', '图', '片', '描', '述', '：', '*', '*']

/-- Literal pattern of the poem marker regex. -/
def poemMarker : List Char := ['*', '*', '诗', '歌', '：', '*', '*']

/-- Literal pattern of the analysis marker regex. -/
def analysisMarker : List Char := ['*', '*', '分', '析', '：', '*', '*']

/-- Canned description used when the description marker is missing, and by
the catch-all fallback. -/
def defaultDescription : List Char :=
  "这是一张美丽的图片，展现了丰富的视觉内容。".data

/-- Canned analysis used when the analysis marker is missing, and by the
catch-all fallback. -/
def defaultAnalysis : List Char :=
  "图片分析：色彩丰富，构图和谐，具有很强的艺术感染力。".data

/-- The JavaScript object returned by `parsePoetryResult`.  Every field of
a JavaScript object can hold `null`; the fields are therefore `Option`s,
and which of them can actually be `none` is a property to prove. -/
structure ParsedPoetry where
  poetry : Option (List (List Char))
  imageDescription : Option (List Char)
  analysis : Option (List Char)
  title : Option (List Char)
deriving DecidableEq, Repr

/-- Result of the `catch` block of `parsePoetryResult`: the raw input split
into lines whose `trim` is non-empty, canned description and analysis, and
a `null` title. -/
def fallbackParse (result : List Char) : ParsedPoetry :=
  { poetry := some ((splitNL result).filter (fun l => !(trimJS l).isEmpty)),
    imageDescription := some defaultDescription,
    analysis := some defaultAnalysis,
    title := none }

/-- The description extraction: first occurrence of the description marker,
then `\s*`, then a lazy capture stopped by the poem marker, the analysis
marker, or end of input; canned default when the marker is absent. -/
def extractDescription (result : List Char) : List Char :=
  match findAfter descMarker result with
  | some rest =>
    trimJS (captureUntil [poemMarker, analysisMarker] (rest.dropWhile jsIsSpace))
  | none => defaultDescription

/-- The poem-section extraction: first occurrence of the poem marker, then
`\s*`, then a lazy capture stopped by the analysis marker or end of input;
the whole raw input when the marker is absent. -/
def extractPoetrySection (result : List Char) : List Char :=
  match findAfter poemMarker result with
  | some rest => trimJS (captureUntil [analysisMarker] (rest.dropWhile jsIsSpace))
  | none => result

/-- The analysis extraction: first occurrence of the analysis marker, then
`\s*`, then a capture running to end of input; canned default when the
marker is absent. -/
def extractAnalysis (result : List Char) : List Char :=
  match findAfter analysisMarker result with
  | some rest => trimJS (rest.dropWhile jsIsSpace)
  | none => defaultAnalysis

/-- The object built on the parser's normal (non-fallback) exit. -/
def mkParsed (poetry1 imageDescription analysis : List Char)
    (titleOpt : Option (List Char)) : ParsedPoetry :=
  { poetry := some ((splitNL poetry1).filter (fun l => !(trimJS l).isEmpty)),
    imageDescription := some imageDescription,
    analysis := some analysis,
    title := titleOpt }

/-- `DoubaoService.parsePoetryResult`.  The source extracts the description,
the poem section and a first-line title, de-titles the poem body when the
title is truthy, and — when the title is missing or shorter than two
characters and the first line of the remaining body is longer than two
characters — executes a `return` whose object literal reads the `const
analysis` binding declared further down.  That read is a temporal-dead-zone
`ReferenceError`, so control transfers to the `catch` block and the canned
fallback object is returned instead. -/
def parsePoetryResult (result : List Char) : ParsedPoetry :=
  let imageDescription := extractDescription result
  let poetry0 := extractPoetrySection result
  let titleOpt : Option (List Char) := (firstLineCapture poetry0).map trimJS
  let poetry1 :=
    match titleOpt with
    | some t => if t.isEmpty then poetry0 else trimJS (removeFirstLine poetry0)
    | none => poetry0
  let shortTitle : Bool :=
    match titleOpt with
    | none => true
    | some t => t.isEmpty || decide (t.length < 2)
  if shortTitle then
    if 2 < ((splitNL poetry1).headD []).length then
      fallbackParse result
    else
      mkParsed poetry1 imageDescription (extractAnalysis result) titleOpt
  else
    mkParsed poetry1 imageDescription (extractAnalysis result) titleOpt

/-! ## Upload-path size decision

Embedded from `poetryController.generatePoetry` (`const threshold = 5 *
1024 * 1024; if (req.file.size > threshold) multipartUploadImage else
uploadImage`) and the identical branch of the `POST /api/images/upload`
route handler. -/

/-- The fixed 5 MiB routing threshold (`5 * 1024 * 1024`). -/
def uploadThreshold : Nat := 5 * 1024 * 1024

/-- Which OSS upload method the routing picks. -/
inductive UploadPath where
  | single
  | multipart
deriving DecidableEq, Repr

/-- The size-based branch shared by `generatePoetry` and the
`/api/images/upload` handler: `size > threshold` selects the multipart
path, everything else the single-shot path. -/
def chooseUploadPath (size : Nat) : UploadPath :=
  if uploadThreshold < size then .multipart else .single

/-! ## `OSSService.uploadImage` and `OSSService.multipartUploadImage`

The external effects are explicit parameters: `sharpResult` is the outcome
of the `sharp(...).resize(800,800,...).jpeg({quality:85}).toBuffer()`
re-encode (`none` models a throw), `put` is the outcome of the OSS client
call, `now`/`uuid` stand for `Date.now()` and `uuidv4()`.  A successful
return carries both the response `data` object and the byte buffer that
was handed to the storage client. -/

/-- Outcome of an OSS client `put`/`multipartUpload` call: success, or a
rejection carrying the optional `error.code`. -/
inductive PutOutcome where
  | ok (etag : String)
  | fail (code : Option String)
deriving DecidableEq, Repr

/-- The `data` object of a successful upload (fields the claims are about;
`url`/`ossUrl`/`etag`, which depend on environment configuration, are
omitted). -/
structure UploadData where
  filename : String
  originalName : String
  size : Nat
  mimetype : String
deriving DecidableEq, Repr

/-- The freshly generated object key: `` `${folder}/${Date.now()}_${uuidv4()}${ext}` ``
with `ext = '.jpg'`. -/
def ossKey (folder : String) (now : Nat) (uuid : String) : String :=
  folder ++ "/" ++ toString now ++ "_" ++ uuid ++ ".jpg"

/-- Error message chosen by the `catch` block of `uploadImage`.  On
`SignatureDoesNotMatch` the two in-catch retries reference the
out-of-scope `filename` binding, so both throw `ReferenceError` into their
inner `catch`es and control falls through to the generic message. -/
def uploadImageErrorMessage (code : Option String) : String :=
  match code with
  | some "NoSuchBucket" => "OSS存储桶不存在，请检查配置"
  | some "AccessDenied" => "OSS访问被拒绝，请检查权限配置"
  | some "InvalidAccessKeyId" => "OSS访问密钥无效，请检查配置"
  | _ => "图片上传失败，请稍后重试"

/-- `OSSService.uploadImage`: the `sharp` re-encode is wrapped in its own
`try`/`catch`, so on failure the original buffer is used unchanged; the
processed (or original) buffer is stored under a fresh `.jpg` key with
content type `image/jpeg`. -/
def uploadImage (imageBuffer : List Nat) (originalName folder : String)
    (sharpResult : Option (List Nat)) (put : PutOutcome) (now : Nat)
    (uuid : String) : Except String (UploadData × List Nat) :=
  let processedBuffer := sharpResult.getD imageBuffer
  let filename := ossKey folder now uuid
  match put with
  | .ok _ =>
    .ok ({ filename := filename, originalName := originalName,
           size := processedBuffer.length, mimetype := "image/jpeg" },
         processedBuffer)
  | .fail code => .error (uploadImageErrorMessage code)

/-- Error message chosen by the `catch` block of `multipartUploadImage`. -/
def multipartErrorMessage (code : Option String) : String :=
  match code with
  | some "ConnectionTimeoutError" => "上传超时，请检查网络连接"
  | some "RequestTimeoutError" => "请求超时，请稍后重试"
  | some "NoSuchBucket" => "OSS存储桶不存在，请检查配置"
  | _ => "图片上传失败，请稍后重试"

/-- `OSSService.multipartUploadImage`: the `sharp` re-encode is **not**
wrapped in an inner `try`/`catch`, so a re-encode failure propagates to the
outer `catch` (a `sharp` error carries none of the OSS codes, hence the
generic message) and nothing is stored. -/
def multipartUploadImage (imageBuffer : List Nat) (originalName folder : String)
    (sharpResult : Option (List Nat)) (put : PutOutcome) (now : Nat)
    (uuid : String) : Except String (UploadData × List Nat) :=
  match sharpResult with
  | none => .error (multipartErrorMessage none)
  | some processedBuffer =>
    let filename := ossKey folder now uuid
    match put with
    | .ok _ =>
      .ok ({ filename := filename, originalName := originalName,
             size := processedBuffer.length, mimetype := "image/jpeg" },
           processedBuffer)
    | .fail code => .error (multipartErrorMessage code)

/-! ## The orchestrator `poetryController.generatePoetry`

Control flow over explicit outcome parameters.  `oss` is the outcome of
the OSS upload when a file was attached, `infer` the outcome of
`doubaoService.generatePoetryFromImage`, `persist` the outcome of
`Poetry.create`, and `now` stands for `Date.now()` at response time. -/

/-- Outcome of an awaited external call: a value, or a thrown error. -/
inductive Outcome (α : Type) where
  | ok (val : α)
  | fail
deriving DecidableEq, Repr

/-- The parsed generation result consumed by the response builder
(`result.poetry`, `result.title`, `result.imageDescription`,
`result.analysis`). -/
structure ResultData where
  poetry : List String
  title : Option String
  imageDescription : String
  analysis : String
deriving DecidableEq, Repr

/-- The request data read by `generatePoetry`: whether a multer file is
attached (and its size), plus the JSON body fields.  `none` models an
absent (`undefined`) body field. -/
structure GenRequest where
  hasFile : Bool
  fileSize : Nat
  imageUrl : Option String
  imageBuffer : Option String
  style : Option String
  userId : Option String
deriving DecidableEq, Repr

/-- The guard of `generatePoetry`: at least one of the multer file, the
`imageUrl` body field and the `imageBuffer` body field is truthy. -/
def hasImageSource (req : GenRequest) : Bool :=
  req.hasFile || jsTruthyStr req.imageUrl || jsTruthyStr req.imageBuffer

/-- One entry of the mock table that `generatePoetry` substitutes on
inference failure. -/
structure MockPoem where
  title : String
  content : List String
deriving DecidableEq, Repr

/-- The four canned poems of the inference-failure mock table, keyed by
style. -/
def mockPoetryTable (style : String) : Option MockPoem :=
  match style with
  | "古风" => some ⟨"春日即景", ["山水如画意境深", "清风徐来花满林", "诗情画意共此时", "万物可作诗一首"]⟩
  | "现代" => some ⟨"光影瞬间", ["光影交织的瞬间", "捕捉时光的足迹", "每一帧都是诗", "生活处处有惊喜"]⟩
  | "浪漫" => some ⟨"岁月静好", ["花开花落情依旧", "岁月静好你依然", "温柔如水话相思", "爱在心中永不变"]⟩
  | "哲理" => some ⟨"人生感悟", ["万象更新见真知", "人生如梦亦如诗", "时光荏苒悟人生", "智慧之光照前路"]⟩
  | _ => none

/-- `mockPoetries[style] || mockPoetries['现代']`: the table lookup with
the *modern* entry as the default for an unrecognized style. -/
def mockFor (style : String) : MockPoem :=
  (mockPoetryTable style).getD ⟨"光影瞬间", ["光影交织的瞬间", "捕捉时光的足迹", "每一帧都是诗", "生活处处有惊喜"]⟩

/-- The mock `result` object assembled in the inference-failure `catch`
of `generatePoetry`. -/
def mockResult (style : String) : ResultData :=
  { poetry := (mockFor style).content,
    title := some (mockFor style).title,
    imageDescription := "这是一张美丽的图片，展现了丰富的视觉内容和深层的意境。",
    analysis := "图片分析：色彩丰富，构图和谐，具有很强的艺术感染力。" }

/-- The `result` value after the inference step: the inference value on
success, the style-keyed mock on any caught inference error. -/
def resultAfterInference (infer : Outcome ResultData) (style : String) : ResultData :=
  match infer with
  | .ok r => r
  | .fail => mockResult style

/-- The HTTP response of `generatePoetry`, flattened to the fields the
claims are about. -/
structure GenResponse where
  status : Nat
  errorMsg : Option String
  id : Option String
  content : List String
  style : Option String
  title : Option String
  note : Option String
deriving DecidableEq, Repr

/-- `poetryController.generatePoetry`: reject with 400 when no image source
is present; otherwise upload (OSS failure degrades to `finalImageUrl =
null`), infer (failure degrades to the style-keyed mock), persist (failure
degrades to a 201 with a `temp_${Date.now()}` placeholder id and a `note`),
and on success respond 201 with the created record's fields. -/
def generatePoetry (req : GenRequest) (oss : Outcome String)
    (infer : Outcome ResultData) (persist : Outcome String) (now : Nat) :
    GenResponse :=
  if hasImageSource req then
    let style := req.style.getD "古风"
    let result := resultAfterInference infer style
    match persist with
    | .ok pid =>
      { status := 201, errorMsg := none, id := some pid,
        content := result.poetry, style := some style, title := result.title,
        note := none }
    | .fail =>
      { status := 201, errorMsg := none, id := some ("temp_" ++ toString now),
        content := result.poetry, style := some style, title := result.title,
        note := some "数据未保存到数据库，请稍后重试" }
  else
    { status := 400, errorMsg := some "请提供图片文件、图片数据或图片URL",
      id := none, content := [], style := none, title := none, note := none }

/-! ## `poetryController.deletePoetry` -/

/-- Outcome of the delete endpoint: the HTTP status and whether
`Poetry.deleteById` was invoked (i.e. whether the record was changed). -/
structure DeleteResult where
  status : Nat
  deleted : Bool
deriving DecidableEq, Repr

/-- `poetryController.deletePoetry`: 404 when the record is absent; 403
(without deleting) when `poetry.userId` is truthy and differs from the
caller's `userId`; otherwise delete and respond 200. -/
def deletePoetry (record : Option (Option String)) (callerUserId : Option String) :
    DeleteResult :=
  match record with
  | none => { status := 404, deleted := false }
  | some owner =>
    if jsTruthyStr owner && decide (owner ≠ callerUserId) then
      { status := 403, deleted := false }
    else
      { status := 200, deleted := true }

/-! ## Record mutations: `updateFeedback` and `sharePoetry`

`sharePoetry` merges `isPublic`/`shareUrl` into `share` and then calls
`Poetry.incrementShareCount`, which writes `(share.share_count || 0) + 1`;
`updateFeedback` overwrites only the provided feedback fields and saves the
record with `share` untouched. -/

/-- The mutable per-record state touched by the feedback and share
endpoints. -/
structure RecordState where
  shareCount : Nat
  isPublic : Bool
  rating : Option Nat
  comment : Option String
  isLiked : Option Bool
deriving DecidableEq, Repr

/-- One call to a record-mutating endpoint. -/
inductive PoetryOp where
  | feedbackOp (rating : Option Nat) (comment : Option String) (isLiked : Option Bool)
  | shareOp (isPublic : Bool)
deriving DecidableEq, Repr

/-- Effect of one endpoint call on the record state. -/
def applyOp (r : RecordState) : PoetryOp → RecordState
  | .feedbackOp ra co li =>
    { r with rating := match ra with | some v => some v | none => r.rating,
             comment := match co with | some v => some v | none => r.comment,
             isLiked := match li with | some v => some v | none => r.isLiked }
  | .shareOp pub => { r with isPublic := pub, shareCount := r.shareCount + 1 }

/-- Effect of a sequence of endpoint calls. -/
def applyOps (r : RecordState) (ops : List PoetryOp) : RecordState :=
  ops.foldl applyOp r

/-- Whether an endpoint call is a share call. -/
def isShareOp : PoetryOp → Bool
  | .shareOp _ => true
  | _ => false

/-! ## Auxiliary definitions for the parser round-trip statement -/

/-- The synthetic round-trip input
`**图片描述：**D\n**诗歌：**T\nL1\nL2\n**分析：**A`. -/
def roundTripInput (d t l1 l2 a : List Char) : List Char :=
  descMarker ++ d ++ '\n' ::
    (poemMarker ++ t ++ '\n' :: (l1 ++ '\n' :: (l2 ++ '\n' :: (analysisMarker ++ a))))

/-- A character that cannot interfere with the parser's marker search or
line handling: not `'*'` and not a line terminator. -/
def plainChar (c : Char) : Bool :=
  !(c = '*' || c.toNat = 0xa || c.toNat = 0xd ||
    c.toNat = 0x2028 || c.toNat = 0x2029)

/-- An edge character (head or last) that `trim` leaves in place. -/
def nonSpaceEdge : Option Char → Bool
  | none => true
  | some c => !jsIsSpace c

/-- A benign text segment for the round trip: marker-free and
line-terminator-free characters, and `trim`-invariant edges. -/
def plainSeg (l : List Char) : Bool :=
  l.all plainChar && nonSpaceEdge l.head? && nonSpaceEdge l.getLast?

/-- No occurrence of the pattern `m` starts inside the region `p` when the
input continues with `rest`: every non-empty suffix position of `p` fails
to begin a match of `m`. -/
def noHit (m p rest : List Char) : Prop :=
  ∀ t, t <:+ p → t ≠ [] → m.isPrefixOf (t ++ rest) = false

/-- Concrete input of the title-promotion claim: the poem section's first
line `夜` is a single character (shorter than two), and the remaining
body's first line is longer than two characters, so the source would
promote it — but the promoting `return` reads `analysis` inside its
temporal dead zone. -/
def promotionInput : List Char :=
  "**图片描述：**美景\n**诗歌：**夜\n清风明月照人间\n山高水长路漫漫\n**分析：**好".data

/-! # Theorems -/

/-- Claim C2: the ingestion router sends a payload strictly larger than the
fixed 5 MiB threshold to the chunked/multipart path, and any payload of
size at most the threshold — including exactly the threshold and one byte
below it — to the single-shot path. -/
theorem upload_size_routing (size : Nat) :
    (chooseUploadPath size = .multipart ↔ uploadThreshold < size) ∧
    chooseUploadPath uploadThreshold = .single ∧
    chooseUploadPath (uploadThreshold - 1) = .single ∧
    chooseUploadPath (uploadThreshold + 1) = .multipart := by
  refine ⟨?_, by decide, by decide, by decide⟩
  unfold chooseUploadPath
  split <;> simp_all

/-- Claim C8: deleting an existing record succeeds for any caller when the
record has no owner id, succeeds when the caller's `userId` equals the
owner id, and answers 403 without deleting when the record has a
(non-empty) owner id different from the caller's `userId`. -/
theorem delete_ownership_rules (caller : Option String) (u : String) :
    deletePoetry (some none) caller = ⟨200, true⟩ ∧
    deletePoetry (some (some u)) (some u) = ⟨200, true⟩ ∧
    (u ≠ "" → caller ≠ some u →
      deletePoetry (some (some u)) caller = ⟨403, false⟩) := by
  refine ⟨rfl, ?_, ?_⟩
  · simp [deletePoetry]
  · intro hu hc
    have h1 : jsTruthyStr (some u) = true := by
      have he : u.isEmpty = false := by
        rw [Bool.eq_false_iff]
        intro h
        exact hu ((String.isEmpty_iff u).mp h)
      simp [jsTruthyStr, he]
    have h2 : decide ((some u : Option String) ≠ caller) = true := by
      simp
      exact fun h => hc h.symm
    simp [deletePoetry, h1, h2]

/-- Witness for `delete_ownership_rules` at a concrete owned record and a
non-owning caller. -/
theorem delete_ownership_rules_witness :
    ("a" ≠ "" ∧ (some "b" : Option String) ≠ some "a") ∧
    deletePoetry (some (some "a")) (some "b") = ⟨403, false⟩ :=
  ⟨⟨by decide, by decide⟩,
   (delete_ownership_rules (some "b") "a").2.2 (by decide) (by decide)⟩

/-- Claim C9: over any sequence of feedback/share endpoint calls the share
counter grows by exactly the number of share calls — hence it is
monotonically non-decreasing, it is incremented only by the share
operation, and two sequential share calls increase it by one each. -/
theorem share_count_monotonic (r : RecordState) (ops : List PoetryOp)
    (b1 b2 : Bool) :
    (applyOps r ops).shareCount = r.shareCount + ops.countP isShareOp ∧
    r.shareCount ≤ (applyOps r ops).shareCount ∧
    (applyOps r [.shareOp b1, .shareOp b2]).shareCount = r.shareCount + 2 := by
  have main : ∀ (l : List PoetryOp) (s : RecordState),
      (applyOps s l).shareCount = s.shareCount + l.countP isShareOp := by
    intro l
    induction l with
    | nil => intro s; simp [applyOps]
    | cons op t ih =>
      intro s
      have h1 : applyOps s (op :: t) = applyOps (applyOp s op) t := rfl
      rw [h1, ih, List.countP_cons]
      cases op with
      | feedbackOp ra co li => simp [applyOp, isShareOp]
      | shareOp pub => simp [applyOp, isShareOp]; omega
  refine ⟨main ops r, ?_, ?_⟩
  · rw [main ops r]; omega
  · rw [main [.shareOp b1, .shareOp b2] r]; rfl

/-- Counterexample to claim C1 as stated: with an unrecognized style the
inference-failure fallback serves the canned poem of the *modern* style
(`现代`), not the poem of the first enumerated style (`古风`). -/
theorem mock_style_default_counterexample :
    (generatePoetry ⟨false, 0, some "http://img", none, some "俳句", none⟩
        .fail .fail (.ok "id1") 0).content = (mockFor "现代").content ∧
    (mockFor "现代").content ≠ (mockFor "古风").content := by decide

/-- Claim C1 (amended): on inference failure the orchestrator still
responds 201 with the canned poem keyed by the requested style — matching
a recognized style exactly, and defaulting to the modern style `现代` when
the style string is unrecognized; no inference failure reaches the
caller. -/
theorem inference_failure_canned_response (req : GenRequest)
    (oss persist : Outcome String) (now : Nat) (s : String)
    (himg : hasImageSource req = true) (hstyle : req.style = some s) :
    (generatePoetry req oss .fail persist now).status = 201 ∧
    (generatePoetry req oss .fail persist now).errorMsg = none ∧
    (generatePoetry req oss .fail persist now).content = (mockFor s).content ∧
    (generatePoetry req oss .fail persist now).title = some (mockFor s).title ∧
    (generatePoetry req oss .fail persist now).style = some s ∧
    (mockFor s ∈ [mockFor "古风", mockFor "现代", mockFor "浪漫", mockFor "哲理"]) ∧
    (mockPoetryTable s = none → mockFor s = mockFor "现代") := by
  have hmem : mockFor s ∈ [mockFor "古风", mockFor "现代", mockFor "浪漫", mockFor "哲理"] := by
    have e1 : mockFor "古风" = ⟨"春日即景", ["山水如画意境深", "清风徐来花满林", "诗情画意共此时", "万物可作诗一首"]⟩ := rfl
    have e2 : mockFor "现代" = ⟨"光影瞬间", ["光影交织的瞬间", "捕捉时光的足迹", "每一帧都是诗", "生活处处有惊喜"]⟩ := rfl
    have e3 : mockFor "浪漫" = ⟨"岁月静好", ["花开花落情依旧", "岁月静好你依然", "温柔如水话相思", "爱在心中永不变"]⟩ := rfl
    have e4 : mockFor "哲理" = ⟨"人生感悟", ["万象更新见真知", "人生如梦亦如诗", "时光荏苒悟人生", "智慧之光照前路"]⟩ := rfl
    rw [e1, e2, e3, e4]
    unfold mockFor mockPoetryTable
    split <;> simp
  have hdef : mockPoetryTable s = none → mockFor s = mockFor "现代" := by
    intro h
    unfold mockFor
    rw [h]
    rfl
  cases persist with
  | ok pid =>
    refine ⟨?_, ?_, ?_, ?_, ?_, hmem, hdef⟩ <;>
      simp [generatePoetry, himg, hstyle, resultAfterInference, mockResult]
  | fail =>
    refine ⟨?_, ?_, ?_, ?_, ?_, hmem, hdef⟩ <;>
      simp [generatePoetry, himg, hstyle, resultAfterInference, mockResult]

/-- Witness for `inference_failure_canned_response` at a concrete request
with an unrecognized style. -/
theorem inference_failure_canned_response_witness :
    (hasImageSource ⟨false, 0, some "http://img", none, some "俳句", none⟩ = true ∧
     GenRequest.style ⟨false, 0, some "http://img", none, some "俳句", none⟩ = some "俳句") ∧
    ((generatePoetry ⟨false, 0, some "http://img", none, some "俳句", none⟩
        .fail .fail (.ok "id1") 0).status = 201 ∧
     (generatePoetry ⟨false, 0, some "http://img", none, some "俳句", none⟩
        .fail .fail (.ok "id1") 0).errorMsg = none ∧
     (generatePoetry ⟨false, 0, some "http://img", none, some "俳句", none⟩
        .fail .fail (.ok "id1") 0).content = (mockFor "俳句").content ∧
     (generatePoetry ⟨false, 0, some "http://img", none, some "俳句", none⟩
        .fail .fail (.ok "id1") 0).title = some (mockFor "俳句").title ∧
     (generatePoetry ⟨false, 0, some "http://img", none, some "俳句", none⟩
        .fail .fail (.ok "id1") 0).style = some "俳句" ∧
     (mockFor "俳句" ∈ [mockFor "古风", mockFor "现代", mockFor "浪漫", mockFor "哲理"]) ∧
     (mockPoetryTable "俳句" = none → mockFor "俳句" = mockFor "现代")) :=
  ⟨⟨by decide, by decide⟩,
   inference_failure_canned_response _ .fail (.ok "id1") 0 "俳句" (by decide) (by decide)⟩

/-- Claim C6: when persistence fails the orchestrator still responds 201
with the generated poem content, a synthetic `temp_${Date.now()}`
placeholder id, and a `note` saying the data was not persisted. -/
theorem persistence_failure_degraded_response (req : GenRequest)
    (oss : Outcome String) (infer : Outcome ResultData) (now : Nat)
    (himg : hasImageSource req = true) :
    generatePoetry req oss infer .fail now =
      { status := 201, errorMsg := none,
        id := some ("temp_" ++ toString now),
        content := (resultAfterInference infer (req.style.getD "古风")).poetry,
        style := some (req.style.getD "古风"),
        title := (resultAfterInference infer (req.style.getD "古风")).title,
        note := some "数据未保存到数据库，请稍后重试" } := by
  simp [generatePoetry, himg]

/-- Witness for `persistence_failure_degraded_response` at a concrete
request and a concrete inference result. -/
theorem persistence_failure_degraded_response_witness :
    hasImageSource ⟨true, 10, none, none, none, none⟩ = true ∧
    generatePoetry ⟨true, 10, none, none, none, none⟩ (.ok "http://oss/x.jpg")
        (.ok ⟨["line1", "line2"], some "t", "d", "a"⟩) .fail 42 =
      { status := 201, errorMsg := none, id := some ("temp_" ++ toString 42),
        content := (resultAfterInference (.ok ⟨["line1", "line2"], some "t", "d", "a"⟩)
          ((⟨true, 10, none, none, none, none⟩ : GenRequest).style.getD "古风")).poetry,
        style := some ((⟨true, 10, none, none, none, none⟩ : GenRequest).style.getD "古风"),
        title := (resultAfterInference (.ok ⟨["line1", "line2"], some "t", "d", "a"⟩)
          ((⟨true, 10, none, none, none, none⟩ : GenRequest).style.getD "古风")).title,
        note := some "数据未保存到数据库，请稍后重试" } :=
  ⟨by decide,
   persistence_failure_degraded_response _ (.ok "http://oss/x.jpg")
     (.ok ⟨["line1", "line2"], some "t", "d", "a"⟩) 42 (by decide)⟩

/-- Counterexample to claim C7 as stated: on the chunked/multipart path a
re-encode failure does not fall back to storing the original bytes — the
operation throws the generic upload error. -/
theorem multipart_reencode_failure_counterexample :
    multipartUploadImage [1, 2, 3] "a.png" "poetry" none (.ok "etag") 0 "u" =
      .error "图片上传失败，请稍后重试" := rfl

/-- Claim C7 (amended): on the single-shot path a re-encode failure stores
the original bytes unmodified and the operation still succeeds; on the
chunked/multipart path a re-encode failure makes the operation fail with
the generic upload error instead of storing anything. -/
theorem reencode_failure_behaviour (buf : List Nat)
    (name folder etag uuid : String) (put : PutOutcome) (now : Nat) :
    uploadImage buf name folder none (.ok etag) now uuid =
      .ok ({ filename := ossKey folder now uuid, originalName := name,
             size := buf.length, mimetype := "image/jpeg" }, buf) ∧
    multipartUploadImage buf name folder none put now uuid =
      .error "图片上传失败，请稍后重试" := by
  exact ⟨rfl, rfl⟩

/-- Claim C10: every buffer actually stored by either upload path is
recorded under the freshly generated key
`folder/now_uuid.jpg` (which ends in `.jpg` and never reuses the caller's
original filename), with content type `image/jpeg` and a reported size
equal to the byte length of the stored buffer. -/
theorem stored_object_key_invariants (buf : List Nat)
    (name folder uuid : String) (sharpRes : Option (List Nat))
    (put : PutOutcome) (now : Nat) (r : UploadData) (stored : List Nat)
    (h : uploadImage buf name folder sharpRes put now uuid = .ok (r, stored) ∨
         multipartUploadImage buf name folder sharpRes put now uuid = .ok (r, stored)) :
    r.filename = ossKey folder now uuid ∧
    (∃ stem, r.filename = stem ++ ".jpg") ∧
    r.mimetype = "image/jpeg" ∧
    r.size = stored.length := by
  have key : r.filename = ossKey folder now uuid ∧ r.mimetype = "image/jpeg" ∧
      r.size = stored.length := by
    rcases h with h | h
    · unfold uploadImage at h
      cases put with
      | ok etag =>
        simp only [Except.ok.injEq, Prod.mk.injEq] at h
        obtain ⟨hr, hs⟩ := h
        subst hr hs
        exact ⟨rfl, rfl, rfl⟩
      | fail code => simp at h
    · unfold multipartUploadImage at h
      cases sharpRes with
      | none => simp at h
      | some processed =>
        cases put with
        | ok etag =>
          simp only [Except.ok.injEq, Prod.mk.injEq] at h
          obtain ⟨hr, hs⟩ := h
          subst hr hs
          exact ⟨rfl, rfl, rfl⟩
        | fail code => simp at h
  exact ⟨key.1, ⟨folder ++ "/" ++ toString now ++ "_" ++ uuid, key.1⟩, key.2⟩

/-- Witness for `stored_object_key_invariants` on a concrete single-shot
upload whose re-encode succeeded. -/
theorem stored_object_key_invariants_witness :
    (uploadImage [1, 2] "cat.png" "poetry" (some [7, 7, 7]) (.ok "e") 3 "u" =
       .ok ({ filename := ossKey "poetry" 3 "u", originalName := "cat.png",
              size := 3, mimetype := "image/jpeg" }, [7, 7, 7]) ∨
     multipartUploadImage [1, 2] "cat.png" "poetry" (some [7, 7, 7]) (.ok "e") 3 "u" =
       .ok ({ filename := ossKey "poetry" 3 "u", originalName := "cat.png",
              size := 3, mimetype := "image/jpeg" }, [7, 7, 7])) ∧
    (UploadData.filename
        { filename := ossKey "poetry" 3 "u", originalName := "cat.png",
          size := 3, mimetype := "image/jpeg" } = ossKey "poetry" 3 "u" ∧
     (∃ stem, UploadData.filename
        { filename := ossKey "poetry" 3 "u", originalName := "cat.png",
          size := 3, mimetype := "image/jpeg" } = stem ++ ".jpg") ∧
     UploadData.mimetype
        { filename := ossKey "poetry" 3 "u", originalName := "cat.png",
          size := 3, mimetype := "image/jpeg" } = "image/jpeg" ∧
     UploadData.size
        { filename := ossKey "poetry" 3 "u", originalName := "cat.png",
          size := 3, mimetype := "image/jpeg" } = List.length [7, 7, 7]) :=
  ⟨Or.inl rfl,
   stored_object_key_invariants [1, 2] "cat.png" "poetry" "u" (some [7, 7, 7])
     (.ok "e") 3 _ [7, 7, 7] (Or.inl rfl)⟩

/-- Counterexample to claim C3 as stated: on the empty input the parser
returns a `null` title (the other three fields are canned defaults). -/
theorem parser_nullable_title_counterexample :
    parsePoetryResult [] =
      { poetry := some [], imageDescription := some defaultDescription,
        analysis := some defaultAnalysis, title := none } ∧
    (parsePoetryResult []).title = none := by decide

/-- Claim C3 (amended): the parser is total — for every input string it
returns a structured result without raising, and the description, analysis
and poem-lines fields are always non-null; the title field, however, may
be null. -/
theorem parser_total_non_null_fields (s : List Char) :
    (parsePoetryResult s).imageDescription.isSome ∧
    (parsePoetryResult s).analysis.isSome ∧
    (parsePoetryResult s).poetry.isSome := by
  simp only [parsePoetryResult]
  split
  · split
    · exact ⟨rfl, rfl, rfl⟩
    · exact ⟨rfl, rfl, rfl⟩
  · exact ⟨rfl, rfl, rfl⟩

/-- Claim C5: evaluation of the parser at an input whose poem section has
a one-character title and whose remaining body starts with a line longer
than two characters.  The source's title-promotion `return` reads the
`const analysis` binding inside its temporal dead zone, so the `catch`
fallback is returned: the title is `null` rather than the promoted first
line, and the description/analysis markers present in the input are
ignored in favour of the canned defaults. -/
theorem title_promotion_dead_zone_eval :
    parsePoetryResult promotionInput = fallbackParse promotionInput ∧
    (parsePoetryResult promotionInput).title = none ∧
    (parsePoetryResult promotionInput).imageDescription = some defaultDescription ∧
    (parsePoetryResult promotionInput).analysis = some defaultAnalysis ∧
    defaultDescription ≠ "美景".data ∧
    defaultAnalysis ≠ "好".data := by decide

/-- Counterexample to claim C4 as stated: the round trip fails for
arbitrary strings — with `D = "**分析：**早"` the captured description is
empty rather than `D` (the analysis marker embedded in `D` terminates the
lazy description capture immediately), and the analysis field is not `A`
either (the leftmost analysis-marker match is the one inside `D`). -/
theorem parser_round_trip_counterexample :
    (parsePoetryResult (roundTripInput "**分析：**早".data "春晓".data
        "春眠不觉晓".data "处处闻啼鸟".data "好诗".data)).imageDescription = some [] ∧
    (some [] : Option (List Char)) ≠ some "**分析：**早".data ∧
    (parsePoetryResult (roundTripInput "**分析：**早".data "春晓".data
        "春眠不觉晓".data "处处闻啼鸟".data "好诗".data)).analysis ≠ some "好诗".data := by
  decide

/-! ## Scanning lemmas for the parser round trip -/

/-- A match of the pattern at the very front resolves `findAfter`. -/
theorem findAfter_of_isPrefixOf (m s : List Char) (h : m.isPrefixOf s = true) :
    findAfter m s = some (s.drop m.length) := by
  cases s with
  | nil =>
    simp only [findAfter, h, if_true, List.drop_nil]
  | cons c rest =>
    simp only [findAfter, h, if_true]

/-- A pattern is a prefix of itself followed by anything. -/
theorem isPrefixOf_append_self (m r : List Char) : m.isPrefixOf (m ++ r) = true := by
  induction m with
  | nil => simp [List.isPrefixOf]
  | cons c m' ih => simp [List.isPrefixOf, ih]

/-- `findAfter` over a region with no occurrence skips the region. -/
theorem findAfter_skip (m rest : List Char) :
    ∀ p : List Char, noHit m p rest → findAfter m (p ++ rest) = findAfter m rest := by
  intro p
  induction p with
  | nil => intro _; rfl
  | cons c p' ih =>
    intro h
    have hfalse : m.isPrefixOf (c :: (p' ++ rest)) = false := by
      have hf := h (c :: p') (List.suffix_refl _) (by simp)
      rw [List.cons_append] at hf
      exact hf
    rw [List.cons_append]
    simp only [findAfter, hfalse, Bool.false_eq_true, if_false]
    exact ih (fun t ht hne => h t (ht.trans (List.suffix_cons c p')) hne)

/-- `captureUntil` passes over a region in which no stop pattern starts. -/
theorem captureUntil_append (stops : List (List Char)) (rest : List Char) :
    ∀ p : List Char,
      (∀ t, t <:+ p → t ≠ [] → ∀ q ∈ stops, q.isPrefixOf (t ++ rest) = false) →
      captureUntil stops (p ++ rest) = p ++ captureUntil stops rest := by
  intro p
  induction p with
  | nil => intro _; rfl
  | cons c p' ih =>
    intro h
    have hany : stops.any (fun q => q.isPrefixOf (c :: (p' ++ rest))) = false := by
      rw [List.any_eq_false]
      intro q hq
      have hf := h (c :: p') (List.suffix_refl _) (by simp) q hq
      rw [List.cons_append] at hf
      simp [hf]
    rw [List.cons_append]
    simp only [captureUntil, hany, Bool.false_eq_true, if_false]
    rw [ih (fun t ht hne => h t (ht.trans (List.suffix_cons c p')) hne),
      List.cons_append]

/-- `captureUntil` stops immediately when a stop pattern starts here. -/
theorem captureUntil_stop (stops : List (List Char)) (s : List Char)
    (h : stops.any (fun q => q.isPrefixOf s) = true) : captureUntil stops s = [] := by
  cases s with
  | nil => rfl
  | cons c r => simp only [captureUntil, h, if_true]

/-- A suffix of `a ++ b` is a suffix of `b`, or a non-empty suffix of `a`
followed by all of `b`. -/
theorem suffix_append_cases (a : List Char) :
    ∀ b t : List Char, t <:+ a ++ b →
      t <:+ b ∨ ∃ t', t' <:+ a ∧ t' ≠ [] ∧ t = t' ++ b := by
  induction a with
  | nil => intro b t h; exact Or.inl (by simpa using h)
  | cons c a' ih =>
    intro b t h
    rw [List.cons_append, List.suffix_cons_iff] at h
    rcases h with rfl | h
    · exact Or.inr ⟨c :: a', List.suffix_refl _, by simp, by simp⟩
    · rcases ih b t h with h' | ⟨t', ht', hne, rfl⟩
      · exact Or.inl h'
      · exact Or.inr ⟨t', ht'.trans (List.suffix_cons c a'), hne, rfl⟩

/-- Concatenation rule for occurrence-free regions. -/
theorem noHit_append (m p₁ p₂ rest : List Char) (h1 : noHit m p₁ (p₂ ++ rest))
    (h2 : noHit m p₂ rest) : noHit m (p₁ ++ p₂) rest := by
  intro t ht hne
  rcases suffix_append_cases p₁ p₂ t ht with h | ⟨t', ht', hne', rfl⟩
  · exact h2 t h hne
  · rw [List.append_assoc]
    exact h1 t' ht' hne'

/-- A pattern starting with a character that heads no suffix of the region
never matches inside the region. -/
theorem noHit_of_head_notMem (c : Char) (q l rest : List Char) (h : c ∉ l) :
    noHit (c :: q) l rest := by
  intro t ht hne
  cases t with
  | nil => exact absurd rfl hne
  | cons x t' =>
    have hx : x ∈ l := ht.subset (List.mem_cons_self x t')
    have hcx : (c == x) = false := beq_eq_false_iff_ne.mpr (fun hc => h (hc ▸ hx))
    simp [List.isPrefixOf, hcx]

/-- A pattern of the shape `q₁ ++ '*' :: q₂` with no newline in `q₁` cannot
match at the start of `l₀ ++ ['\n'] ++ s` when `l₀` is star-free: a match
would place the `'*'` inside `l₀`, or the `'\n'` inside `q₁`. -/
theorem no_prefix_star_gap (q₂ s : List Char) :
    ∀ l₀ q₁ : List Char, '\n' ∉ q₁ → '*' ∉ l₀ →
      (q₁ ++ '*' :: q₂).isPrefixOf ((l₀ ++ ['\n']) ++ s) = false := by
  intro l₀
  induction l₀ with
  | nil =>
    intro q₁ h1 _
    cases q₁ with
    | nil => simp +decide [List.isPrefixOf]
    | cons c q₁' =>
      have hc : (c == '\n') = false :=
        beq_eq_false_iff_ne.mpr (fun hcc => h1 (hcc ▸ List.mem_cons_self c q₁'))
      simp [List.isPrefixOf, hc]
  | cons x l₀' ih =>
    intro q₁ h1 h2
    cases q₁ with
    | nil =>
      have hx : ('*' == x) = false :=
        beq_eq_false_iff_ne.mpr (fun hc => h2 (hc.symm ▸ List.mem_cons_self x l₀'))
      simp [List.isPrefixOf, hx]
    | cons c q₁' =>
      by_cases hcx : c = x
      · subst hcx
        have h1' : '\n' ∉ q₁' := fun hm => h1 (List.mem_cons_of_mem _ hm)
        have h2' : '*' ∉ l₀' := fun hm => h2 (List.mem_cons_of_mem _ hm)
        have := ih q₁' h1' h2'
        simpa [List.isPrefixOf] using this
      · have hc : (c == x) = false := beq_eq_false_iff_ne.mpr hcx
        simp [List.isPrefixOf, hc]

/-! ## Trim, takeWhile and split lemmas -/

/-- `dropWhile` is the identity when the head fails the predicate. -/
theorem dropWhile_eq_self_of_head (p : Char → Bool) (l : List Char)
    (h : ∀ c, l.head? = some c → p c = false) : l.dropWhile p = l := by
  cases l with
  | nil => rfl
  | cons c r => simp [List.dropWhile_cons, h c rfl]

/-- `trim` is the identity on a list with non-space edges. -/
theorem trimJS_eq_self (l : List Char) (hh : nonSpaceEdge l.head? = true)
    (hl : nonSpaceEdge l.getLast? = true) : trimJS l = l := by
  unfold trimJS
  have h1 : l.dropWhile jsIsSpace = l := by
    apply dropWhile_eq_self_of_head
    intro c hc
    rw [hc] at hh
    simpa [nonSpaceEdge] using hh
  rw [h1]
  have h2 : l.reverse.dropWhile jsIsSpace = l.reverse := by
    apply dropWhile_eq_self_of_head
    intro c hc
    rw [List.head?_reverse] at hc
    rw [hc] at hl
    simpa [nonSpaceEdge] using hl
  rw [h2, List.reverse_reverse]

/-- `trim` removes exactly one trailing newline from a list with non-space
edges. -/
theorem trimJS_append_newline (l : List Char) (hh : nonSpaceEdge l.head? = true)
    (hl : nonSpaceEdge l.getLast? = true) : trimJS (l ++ ['\n']) = l := by
  cases l with
  | nil => decide
  | cons c r =>
    unfold trimJS
    have h1 : ((c :: r) ++ ['\n']).dropWhile jsIsSpace = (c :: r) ++ ['\n'] := by
      apply dropWhile_eq_self_of_head
      intro c' hc'
      have : c' = c := by
        rw [List.cons_append] at hc'
        simpa using hc'.symm
      subst this
      simpa [nonSpaceEdge] using hh
    rw [h1, List.reverse_append]
    have h2 : (['\n'].reverse ++ (c :: r).reverse).dropWhile jsIsSpace =
        (c :: r).reverse.dropWhile jsIsSpace := by
      simp [List.dropWhile_cons, show jsIsSpace '\n' = true from rfl]
    rw [h2]
    have h3 : (c :: r).reverse.dropWhile jsIsSpace = (c :: r).reverse := by
      apply dropWhile_eq_self_of_head
      intro c' hc'
      rw [List.head?_reverse] at hc'
      rw [hc'] at hl
      simpa [nonSpaceEdge] using hl
    rw [h3, List.reverse_reverse]

/-- `takeWhile` collects exactly a satisfying block up to a failing
element. -/
theorem takeWhile_append_stop (p : Char → Bool) (x : Char) (hx : p x = false) :
    ∀ (l r : List Char), (∀ c ∈ l, p c = true) →
      (l ++ x :: r).takeWhile p = l := by
  intro l
  induction l with
  | nil => intro r _; simp [List.takeWhile_cons, hx]
  | cons c l' ih =>
    intro r h
    have hc : p c = true := h c (List.mem_cons_self c l')
    rw [List.cons_append]
    simp [List.takeWhile_cons, hc,
      ih r (fun c' hc' => h c' (List.mem_cons_of_mem _ hc'))]

/-- A newline-free list splits into a single piece. -/
theorem splitNL_no_newline : ∀ l : List Char, '\n' ∉ l → splitNL l = [l] := by
  intro l
  induction l with
  | nil => intro _; rfl
  | cons c r ih =>
    intro h
    have hc : ¬(c = '\n') := fun hcc => h (hcc ▸ List.mem_cons_self c r)
    have hr : '\n' ∉ r := fun hm => h (List.mem_cons_of_mem _ hm)
    rw [splitNL, if_neg hc, ih hr]

/-- Splitting peels off a leading newline-free piece. -/
theorem splitNL_append_newline :
    ∀ l r : List Char, '\n' ∉ l → splitNL (l ++ '\n' :: r) = l :: splitNL r := by
  intro l
  induction l with
  | nil => intro r _; rw [List.nil_append, splitNL, if_pos rfl]
  | cons c l' ih =>
    intro r h
    have hc : ¬(c = '\n') := fun hcc => h (hcc ▸ List.mem_cons_self c l')
    have hl' : '\n' ∉ l' := fun hm => h (List.mem_cons_of_mem _ hm)
    rw [List.cons_append, splitNL, if_neg hc, ih r hl']

/-- `head?` of an append with a non-empty left part. -/
theorem head?_append_ne (l x : List Char) (h : l ≠ []) :
    (l ++ x).head? = l.head? := by
  cases l with
  | nil => exact absurd rfl h
  | cons c r => rfl

/-! ## Unpacking `plainSeg` -/

/-- All characters of a benign segment are `plainChar`. -/
theorem plainSeg_all (l : List Char) (h : plainSeg l = true) :
    ∀ c ∈ l, plainChar c = true := by
  simp only [plainSeg, Bool.and_eq_true, List.all_eq_true] at h
  exact h.1.1

/-- A benign segment contains no `'*'`. -/
theorem plainSeg_no_star (l : List Char) (h : plainSeg l = true) : '*' ∉ l := by
  intro hm
  have := plainSeg_all l h '*' hm
  simp [plainChar] at this

/-- A benign segment contains no newline. -/
theorem plainSeg_no_newline (l : List Char) (h : plainSeg l = true) : '\n' ∉ l := by
  intro hm
  have := plainSeg_all l h '\n' hm
  simp [plainChar] at this

/-- The head of a benign segment is not trimmable whitespace. -/
theorem plainSeg_head (l : List Char) (h : plainSeg l = true) :
    nonSpaceEdge l.head? = true := by
  simp only [plainSeg, Bool.and_eq_true] at h
  exact h.1.2

/-- The last element of a benign segment is not trimmable whitespace. -/
theorem plainSeg_last (l : List Char) (h : plainSeg l = true) :
    nonSpaceEdge l.getLast? = true := by
  simp only [plainSeg, Bool.and_eq_true] at h
  exact h.2

/-- Every character of a benign segment is in the class of JavaScript
`.`. -/
theorem plainSeg_jsDot (l : List Char) (h : plainSeg l = true) :
    ∀ c ∈ l, jsDot c = true := by
  intro c hc
  have hp := plainSeg_all l h c hc
  simp only [plainChar, Bool.not_eq_true', Bool.or_eq_false_iff] at hp
  simp only [jsDot, Bool.not_eq_true', Bool.or_eq_false_iff]
  exact ⟨⟨⟨hp.1.1.1.2, hp.1.1.2⟩, hp.1.2⟩, hp.2⟩

/-! ## No marker occurrence inside the regions of the round-trip input -/

/-- A star-free segment followed by a newline is star-free. -/
theorem no_star_append_newline (d : List Char) (hd : '*' ∉ d) :
    '*' ∉ d ++ ['\n'] := by
  intro hm
  rcases List.mem_append.mp hm with h | h
  · exact hd h
  · simp at h

/-- The poem marker does not start inside `descMarker ++ D ++ '\n'` when
`D` is star-free. -/
theorem noHit_poemMarker_desc (d rest : List Char) (hd : '*' ∉ d) :
    noHit poemMarker (descMarker ++ (d ++ ['\n'])) rest := by
  apply noHit_append
  · intro t ht hne
    rw [show descMarker = ['*', '*', '图', '片', '描', '述', '：', '*', '*'] from rfl] at ht
    simp only [List.suffix_cons_iff, List.suffix_nil] at ht
    rcases ht with rfl | rfl | rfl | rfl | rfl | rfl | rfl | rfl | rfl | rfl
    · simp +decide [poemMarker, List.isPrefixOf]
    · simp +decide [poemMarker, List.isPrefixOf]
    · simp +decide [poemMarker, List.isPrefixOf]
    · simp +decide [poemMarker, List.isPrefixOf]
    · simp +decide [poemMarker, List.isPrefixOf]
    · simp +decide [poemMarker, List.isPrefixOf]
    · simp +decide [poemMarker, List.isPrefixOf]
    · have hgap' : List.isPrefixOf ['诗', '歌', '：', '*', '*'] (d ++ '\n' :: rest) = false := by
        simpa using no_prefix_star_gap ['*'] rest d ['诗', '歌', '：'] (by decide) hd
      simp +decide [poemMarker, List.isPrefixOf, hgap']
    · cases d with
      | nil => simp +decide [poemMarker, List.isPrefixOf]
      | cons c d' =>
        have hc : ('*' == c) = false := beq_eq_false_iff_ne.mpr
          (fun hc => hd (hc.symm ▸ List.mem_cons_self c d'))
        simp +decide [poemMarker, List.isPrefixOf, hc]
    · exact absurd rfl hne
  · exact noHit_of_head_notMem '*' ['*', '诗', '歌', '：', '*', '*'] (d ++ ['\n']) rest
      (no_star_append_newline d hd)

/-- The analysis marker does not start inside `descMarker ++ D ++ '\n'`
when `D` is star-free. -/
theorem noHit_analysisMarker_desc (d rest : List Char) (hd : '*' ∉ d) :
    noHit analysisMarker (descMarker ++ (d ++ ['\n'])) rest := by
  apply noHit_append
  · intro t ht hne
    rw [show descMarker = ['*', '*', '图', '片', '描', '述', '：', '*', '*'] from rfl] at ht
    simp only [List.suffix_cons_iff, List.suffix_nil] at ht
    rcases ht with rfl | rfl | rfl | rfl | rfl | rfl | rfl | rfl | rfl | rfl
    · simp +decide [analysisMarker, List.isPrefixOf]
    · simp +decide [analysisMarker, List.isPrefixOf]
    · simp +decide [analysisMarker, List.isPrefixOf]
    · simp +decide [analysisMarker, List.isPrefixOf]
    · simp +decide [analysisMarker, List.isPrefixOf]
    · simp +decide [analysisMarker, List.isPrefixOf]
    · simp +decide [analysisMarker, List.isPrefixOf]
    · have hgap' : List.isPrefixOf ['分', '析', '：', '*', '*'] (d ++ '\n' :: rest) = false := by
        simpa using no_prefix_star_gap ['*'] rest d ['分', '析', '：'] (by decide) hd
      simp +decide [analysisMarker, List.isPrefixOf, hgap']
    · cases d with
      | nil => simp +decide [analysisMarker, List.isPrefixOf]
      | cons c d' =>
        have hc : ('*' == c) = false := beq_eq_false_iff_ne.mpr
          (fun hc => hd (hc.symm ▸ List.mem_cons_self c d'))
        simp +decide [analysisMarker, List.isPrefixOf, hc]
    · exact absurd rfl hne
  · exact noHit_of_head_notMem '*' ['*', '分', '析', '：', '*', '*'] (d ++ ['\n']) rest
      (no_star_append_newline d hd)

/-- The analysis marker does not start inside `poemMarker ++ T ++ '\n'`
when `T` is star-free. -/
theorem noHit_analysisMarker_poem (t rest : List Char) (ht : '*' ∉ t) :
    noHit analysisMarker (poemMarker ++ (t ++ ['\n'])) rest := by
  apply noHit_append
  · intro u hu hne
    rw [show poemMarker = ['*', '*', '诗', '歌', '：', '*', '*'] from rfl] at hu
    simp only [List.suffix_cons_iff, List.suffix_nil] at hu
    rcases hu with rfl | rfl | rfl | rfl | rfl | rfl | rfl | rfl
    · simp +decide [analysisMarker, List.isPrefixOf]
    · simp +decide [analysisMarker, List.isPrefixOf]
    · simp +decide [analysisMarker, List.isPrefixOf]
    · simp +decide [analysisMarker, List.isPrefixOf]
    · simp +decide [analysisMarker, List.isPrefixOf]
    · have hgap' : List.isPrefixOf ['分', '析', '：', '*', '*'] (t ++ '\n' :: rest) = false := by
        simpa using no_prefix_star_gap ['*'] rest t ['分', '析', '：'] (by decide) ht
      simp +decide [analysisMarker, List.isPrefixOf, hgap']
    · cases t with
      | nil => simp +decide [analysisMarker, List.isPrefixOf]
      | cons c t' =>
        have hc : ('*' == c) = false := beq_eq_false_iff_ne.mpr
          (fun hc => ht (hc.symm ▸ List.mem_cons_self c t'))
        simp +decide [analysisMarker, List.isPrefixOf, hc]
    · exact absurd rfl hne
  · exact noHit_of_head_notMem '*' ['*', '分', '析', '：', '*', '*'] (t ++ ['\n']) rest
      (no_star_append_newline t ht)

/-! ## Extraction lemmas on the round-trip input -/

/-- Reassociated shape of the round-trip input exposing the description
region. -/
theorem roundTripInput_shape (d t l1 l2 a : List Char) :
    roundTripInput d t l1 l2 a =
      descMarker ++ ((d ++ ['\n']) ++
        (poemMarker ++ ((t ++ ['\n']) ++
          ((l1 ++ ['\n']) ++ ((l2 ++ ['\n']) ++ (analysisMarker ++ a)))))) := by
  simp [roundTripInput]

/-- `getLast?` of an append with a non-empty right part. -/
theorem getLast?_append_ne (l x : List Char) (h : x ≠ []) :
    (l ++ x).getLast? = x.getLast? := by
  rw [List.getLast?_append]
  cases hx : x.getLast? with
  | none => exact absurd (List.getLast?_eq_none_iff.mp hx) h
  | some y => rfl

/-- The description extracted from the round-trip input is `D`. -/
theorem extractDescription_roundTrip (d t l1 l2 a : List Char)
    (hd : plainSeg d = true) :
    extractDescription (roundTripInput d t l1 l2 a) = d := by
  rw [roundTripInput_shape]
  set R : List Char := poemMarker ++ ((t ++ ['\n']) ++
    ((l1 ++ ['\n']) ++ ((l2 ++ ['\n']) ++ (analysisMarker ++ a)))) with hR
  have hfind : findAfter descMarker (descMarker ++ ((d ++ ['\n']) ++ R)) =
      some ((d ++ ['\n']) ++ R) := by
    rw [findAfter_of_isPrefixOf _ _ (isPrefixOf_append_self _ _), List.drop_left]
  have hstopR : captureUntil [poemMarker, analysisMarker] R = [] := by
    apply captureUntil_stop
    rw [hR, List.any_cons]
    simp [isPrefixOf_append_self]
  simp only [extractDescription, hfind]
  cases hdc : d with
  | nil =>
    have hdropR : R.dropWhile jsIsSpace = R := by
      apply dropWhile_eq_self_of_head
      intro c hc
      rw [hR, show poemMarker = ['*', '*', '诗', '歌', '：', '*', '*'] from rfl] at hc
      simp only [List.cons_append, List.head?_cons, Option.some.injEq] at hc
      subst hc
      decide
    simp only [List.nil_append, List.singleton_append]
    rw [show (('\n' :: R).dropWhile jsIsSpace) = R.dropWhile jsIsSpace from by
      simp [List.dropWhile_cons, show jsIsSpace '\n' = true from rfl]]
    rw [hdropR, hstopR]
    decide
  | cons c d' =>
    subst hdc
    have hhead : jsIsSpace c = false := by
      have := plainSeg_head _ hd
      simpa [nonSpaceEdge] using this
    have hdrop : (((c :: d') ++ ['\n']) ++ R).dropWhile jsIsSpace =
        ((c :: d') ++ ['\n']) ++ R := by
      apply dropWhile_eq_self_of_head
      intro c' hc'
      have hcc : c' = c := by
        simp only [List.cons_append, List.head?_cons, Option.some.injEq] at hc'
        exact hc'.symm
      rwa [hcc]
    rw [hdrop]
    have hcap : captureUntil [poemMarker, analysisMarker] (((c :: d') ++ ['\n']) ++ R) =
        ((c :: d') ++ ['\n']) ++ captureUntil [poemMarker, analysisMarker] R := by
      apply captureUntil_append
      intro u hu hne q hq
      have hstar := no_star_append_newline (c :: d') (plainSeg_no_star _ hd)
      rcases List.mem_cons.mp hq with rfl | hq'
      · exact noHit_of_head_notMem '*' ['*', '诗', '歌', '：', '*', '*'] _ _ hstar u hu hne
      · rcases List.mem_cons.mp hq' with rfl | h0
        · exact noHit_of_head_notMem '*' ['*', '分', '析', '：', '*', '*'] _ _ hstar u hu hne
        · simp at h0
    rw [hcap, hstopR, List.append_nil]
    exact trimJS_append_newline _ (plainSeg_head _ hd) (plainSeg_last _ hd)

/-- The poem section extracted from the round-trip input is
`T\nL1\nL2`. -/
theorem extractPoetrySection_roundTrip (d t l1 l2 a : List Char)
    (hd : plainSeg d = true) (ht : plainSeg t = true) (htne : t ≠ [])
    (h1 : plainSeg l1 = true) (h2 : plainSeg l2 = true) (h2ne : l2 ≠ []) :
    extractPoetrySection (roundTripInput d t l1 l2 a) =
      t ++ '\n' :: (l1 ++ '\n' :: l2) := by
  set R2 : List Char := (t ++ ['\n']) ++
    ((l1 ++ ['\n']) ++ ((l2 ++ ['\n']) ++ (analysisMarker ++ a))) with hR2
  have hshape : roundTripInput d t l1 l2 a =
      (descMarker ++ (d ++ ['\n'])) ++ (poemMarker ++ R2) := by
    rw [hR2]
    simp [roundTripInput]
  rw [hshape]
  have hskip : findAfter poemMarker
      ((descMarker ++ (d ++ ['\n'])) ++ (poemMarker ++ R2)) =
      findAfter poemMarker (poemMarker ++ R2) :=
    findAfter_skip _ _ _ (noHit_poemMarker_desc d _ (plainSeg_no_star d hd))
  have hfind : findAfter poemMarker (poemMarker ++ R2) = some R2 := by
    rw [findAfter_of_isPrefixOf _ _ (isPrefixOf_append_self _ _), List.drop_left]
  simp only [extractPoetrySection, hskip, hfind]
  obtain ⟨c, t', rfl⟩ : ∃ c t', t = c :: t' := by
    cases t with
    | nil => exact absurd rfl htne
    | cons c t' => exact ⟨c, t', rfl⟩
  have hheadt : jsIsSpace c = false := by
    have := plainSeg_head _ ht
    simpa [nonSpaceEdge] using this
  have hdrop : R2.dropWhile jsIsSpace = R2 := by
    apply dropWhile_eq_self_of_head
    intro c' hc'
    have hcc : c' = c := by
      rw [hR2] at hc'
      simp only [List.cons_append, List.head?_cons, Option.some.injEq] at hc'
      exact hc'.symm
    rwa [hcc]
  rw [hdrop]
  -- reassociate: R2 = P ++ (analysisMarker ++ a)
  set P : List Char := ((c :: t') ++ ['\n']) ++ ((l1 ++ ['\n']) ++ (l2 ++ ['\n'])) with hP
  have hR2P : R2 = P ++ (analysisMarker ++ a) := by
    rw [hR2, hP]
    simp [List.append_assoc]
  have hstarP : '*' ∉ P := by
    rw [hP]
    intro hm
    simp only [List.mem_append, List.mem_singleton] at hm
    rcases hm with (ht' | ht') | ((hl1 | hl1) | (hl2 | hl2))
    · exact plainSeg_no_star _ ht ht'
    · exact absurd ht' (by decide)
    · exact plainSeg_no_star l1 h1 hl1
    · exact absurd hl1 (by decide)
    · exact plainSeg_no_star l2 h2 hl2
    · exact absurd hl2 (by decide)
  have hcap : captureUntil [analysisMarker] (P ++ (analysisMarker ++ a)) =
      P ++ captureUntil [analysisMarker] (analysisMarker ++ a) := by
    apply captureUntil_append
    intro u hu hne q hq
    rcases List.mem_cons.mp hq with rfl | h0
    · exact noHit_of_head_notMem '*' ['*', '分', '析', '：', '*', '*'] _ _ hstarP u hu hne
    · simp at h0
  have hstop : captureUntil [analysisMarker] (analysisMarker ++ a) = [] := by
    apply captureUntil_stop
    simp [List.any_cons, isPrefixOf_append_self]
  rw [hR2P, hcap, hstop, List.append_nil]
  -- P = (c :: t' ++ '\n' :: (l1 ++ '\n' :: l2)) ++ ['\n']
  have hPQ : P = ((c :: t') ++ '\n' :: (l1 ++ '\n' :: l2)) ++ ['\n'] := by
    rw [hP]
    simp
  rw [hPQ]
  apply trimJS_append_newline
  · rw [head?_append_ne _ _ (by simp)]
    exact plainSeg_head _ ht
  · rw [getLast?_append_ne _ _ (by simp)]
    rw [show ('\n' :: (l1 ++ '\n' :: l2)) = ['\n'] ++ (l1 ++ '\n' :: l2) from rfl]
    rw [getLast?_append_ne _ _ (by simp)]
    rw [getLast?_append_ne _ _ (by simp)]
    rw [show ('\n' :: l2) = ['\n'] ++ l2 from rfl]
    rw [getLast?_append_ne _ _ h2ne]
    exact plainSeg_last _ h2

/-- The analysis extracted from the round-trip input is `A`. -/
theorem extractAnalysis_roundTrip (d t l1 l2 a : List Char)
    (hd : plainSeg d = true) (ht : plainSeg t = true)
    (h1 : plainSeg l1 = true) (h2 : plainSeg l2 = true)
    (ha : plainSeg a = true) :
    extractAnalysis (roundTripInput d t l1 l2 a) = a := by
  set P : List Char := (descMarker ++ (d ++ ['\n'])) ++
    ((poemMarker ++ (t ++ ['\n'])) ++ ((l1 ++ ['\n']) ++ (l2 ++ ['\n']))) with hP
  have hshape : roundTripInput d t l1 l2 a = P ++ (analysisMarker ++ a) := by
    rw [hP]
    simp [roundTripInput]
  have hnoHit : noHit analysisMarker P (analysisMarker ++ a) := by
    rw [hP]
    apply noHit_append
    · rw [← List.append_assoc]
      exact noHit_analysisMarker_desc d _ (plainSeg_no_star d hd)
    · apply noHit_append
      · rw [← List.append_assoc]
        exact noHit_analysisMarker_poem t _ (plainSeg_no_star t ht)
      · apply noHit_append
        · rw [← List.append_assoc]
          exact noHit_of_head_notMem '*' ['*', '分', '析', '：', '*', '*'] _ _
            (no_star_append_newline l1 (plainSeg_no_star l1 h1))
        · exact noHit_of_head_notMem '*' ['*', '分', '析', '：', '*', '*'] _ _
            (no_star_append_newline l2 (plainSeg_no_star l2 h2))
  have hskip : findAfter analysisMarker (P ++ (analysisMarker ++ a)) =
      findAfter analysisMarker (analysisMarker ++ a) :=
    findAfter_skip _ _ _ hnoHit
  have hfind : findAfter analysisMarker (analysisMarker ++ a) = some a := by
    rw [findAfter_of_isPrefixOf _ _ (isPrefixOf_append_self _ _), List.drop_left]
  rw [hshape]
  simp only [extractAnalysis, hskip, hfind]
  have hdropa : a.dropWhile jsIsSpace = a := by
    apply dropWhile_eq_self_of_head
    intro c hc
    have := plainSeg_head _ ha
    rw [hc] at this
    simpa [nonSpaceEdge] using this
  rw [hdropa]
  exact trimJS_eq_self _ (plainSeg_head _ ha) (plainSeg_last _ ha)

/-- Claim C4 (amended): the parser round trip holds for benign segments —
`D`, `T`, `L1`, `L2`, `A` marker-free (no `'*'`), single-line, with
`trim`-invariant edges, `T` at least two characters long, and `L1`, `L2`
non-empty: parsing `**图片描述：**D\n**诗歌：**T\nL1\nL2\n**分析：**A`
recovers description `D`, title `T`, poem lines `[L1, L2]` and analysis
`A`. -/
theorem parsePoetryResult_roundTrip (d t l1 l2 a : List Char)
    (hd : plainSeg d = true) (ht : plainSeg t = true) (htlen : 2 ≤ t.length)
    (h1 : plainSeg l1 = true) (h1ne : l1 ≠ [])
    (h2 : plainSeg l2 = true) (h2ne : l2 ≠ [])
    (ha : plainSeg a = true) :
    parsePoetryResult (roundTripInput d t l1 l2 a) =
      { poetry := some [l1, l2], imageDescription := some d,
        analysis := some a, title := some t } := by
  have htne : t ≠ [] := by
    intro h
    rw [h] at htlen
    simp at htlen
  have hdesc := extractDescription_roundTrip d t l1 l2 a hd
  have hpoem := extractPoetrySection_roundTrip d t l1 l2 a hd ht htne h1 h2 h2ne
  have hana := extractAnalysis_roundTrip d t l1 l2 a hd ht h1 h2 ha
  have hempty : t.isEmpty = false := by
    cases t with
    | nil => exact absurd rfl htne
    | cons c t' => rfl
  have htake : (t ++ '\n' :: (l1 ++ '\n' :: l2)).takeWhile jsDot = t :=
    takeWhile_append_stop jsDot '\n' (by decide) t _ (plainSeg_jsDot t ht)
  have hdroplen : (t ++ '\n' :: (l1 ++ '\n' :: l2)).drop t.length =
      '\n' :: (l1 ++ '\n' :: l2) := List.drop_left t _
  have hflc : firstLineCapture (t ++ '\n' :: (l1 ++ '\n' :: l2)) = some t := by
    simp only [firstLineCapture, htake, hempty, Bool.false_eq_true, if_false,
      hdroplen]
  have htrimt : trimJS t = t :=
    trimJS_eq_self _ (plainSeg_head _ ht) (plainSeg_last _ ht)
  have hrem : removeFirstLine (t ++ '\n' :: (l1 ++ '\n' :: l2)) =
      l1 ++ '\n' :: l2 := by
    unfold removeFirstLine
    rw [hflc]
    show List.drop (t.length + 1) (t ++ '\n' :: (l1 ++ '\n' :: l2)) =
      l1 ++ '\n' :: l2
    have hlen : t.length + 1 = (t ++ ['\n']).length := by simp
    rw [hlen, show (t ++ '\n' :: (l1 ++ '\n' :: l2)) =
      (t ++ ['\n']) ++ (l1 ++ '\n' :: l2) from by simp, List.drop_left]
  have htrimBody : trimJS (l1 ++ '\n' :: l2) = l1 ++ '\n' :: l2 := by
    apply trimJS_eq_self
    · rw [head?_append_ne _ _ h1ne]
      exact plainSeg_head _ h1
    · rw [show ('\n' :: l2) = ['\n'] ++ l2 from rfl, ← List.append_assoc,
        getLast?_append_ne _ _ h2ne]
      exact plainSeg_last _ h2
  have hlt : decide (t.length < 2) = false := by
    rw [decide_eq_false_iff_not]
    omega
  have hsplit : splitNL (l1 ++ '\n' :: l2) = [l1, l2] := by
    rw [splitNL_append_newline l1 l2 (plainSeg_no_newline l1 h1),
      splitNL_no_newline l2 (plainSeg_no_newline l2 h2)]
  have hfilter : [l1, l2].filter (fun l => !(trimJS l).isEmpty) = [l1, l2] := by
    have e1 : trimJS l1 = l1 :=
      trimJS_eq_self _ (plainSeg_head _ h1) (plainSeg_last _ h1)
    have e2 : trimJS l2 = l2 :=
      trimJS_eq_self _ (plainSeg_head _ h2) (plainSeg_last _ h2)
    have b1 : l1.isEmpty = false := by
      cases l1 with
      | nil => exact absurd rfl h1ne
      | cons c r => rfl
    have b2 : l2.isEmpty = false := by
      cases l2 with
      | nil => exact absurd rfl h2ne
      | cons c r => rfl
    simp [List.filter_cons, e1, e2, b1, b2]
  simp only [parsePoetryResult, hdesc, hpoem, hana, hflc, Option.map_some',
    htrimt, hempty, Bool.false_eq_true, if_false, hrem, htrimBody,
    Bool.false_or, hlt, mkParsed, hsplit, hfilter]

/-- Witness for `parsePoetryResult_roundTrip` at concrete benign
segments. -/
theorem parsePoetryResult_roundTrip_witness :
    (plainSeg "远山如黛".data = true ∧ plainSeg "春晓".data = true ∧
     2 ≤ "春晓".data.length ∧ plainSeg "春眠不觉晓".data = true ∧
     "春眠不觉晓".data ≠ [] ∧ plainSeg "处处闻啼鸟".data = true ∧
     "处处闻啼鸟".data ≠ [] ∧ plainSeg "意境深远".data = true) ∧
    parsePoetryResult (roundTripInput "远山如黛".data "春晓".data
        "春眠不觉晓".data "处处闻啼鸟".data "意境深远".data) =
      { poetry := some ["春眠不觉晓".data, "处处闻啼鸟".data],
        imageDescription := some "远山如黛".data,
        analysis := some "意境深远".data, title := some "春晓".data } :=
  ⟨⟨by decide, by decide, by decide, by decide, by decide, by decide,
    by decide, by decide⟩,
   parsePoetryResult_roundTrip "远山如黛".data "春晓".data "春眠不觉晓".data
     "处处闻啼鸟".data "意境深远".data (by decide) (by decide) (by decide)
     (by decide) (by decide) (by decide) (by decide) (by decide)⟩

end AnyToPoem
